import Mathlib

/-!
The DWD weather-warning client of `mistwetter`

A shallow embedding of `client/client.go` and `client/data.go`.

* Byte slices and strings hold UTF-8 text and are modelled by their sequence of
  runes (`List Char`, `String`).
* `int64` values are only compared, never computed with, and are modelled by `Int`.
* A Go function returning `(value, error)` returns `Except Err value`; in the source
  every error return has the shape `return nil, err`.
* What the client asks of the outside world (the logger, `url.Parse`,
  `regexp.Compile`, `json.Unmarshal`, the HTTP exchange, the order in which `range`
  visits a map, how many warnings the consumer receives from the queue) is a
  parameter of the function that asks for it.
* `Stop` against `Loop` is a step function over the statements of the two tasks; a
  run is a list of steps.
-/

namespace Mistwetter

/-! ## Go's `regexp` package, for the fragment of its syntax the client needs

A pattern of the fragment is a sequence of one-rune matchers, each optionally
repeated (`*`, `+`, `?`, all greedy), the anchors `^` and `$`, and capture-group
brackets that enclose whole items.  Matching is leftmost-first: the match starts as
early as possible and is, among the matches starting there, the one a backtracking
search finds first. -/

/-- A matcher for one rune. -/
inductive Atom
  | lit (c : Char)
  | dot
  | cls (neg : Bool) (ranges : List (Char × Char))
  deriving DecidableEq, Repr

/-- Whether the atom accepts the rune: `.` is every rune but the newline, a bracket
class the runes in one of its ranges (or, negated, in none). -/
def Atom.accepts : Atom → Char → Bool
  | .lit c, x => x == c
  | .dot, x => x != Char.ofNat 10
  | .cls neg rs, x => (rs.any fun r => decide (r.1.toNat ≤ x.toNat) && decide (x.toNat ≤ r.2.toNat)) != neg

/-- One item of a pattern. -/
inductive Inst
  | one (a : Atom)
  | star (a : Atom)
  | plus (a : Atom)
  | quest (a : Atom)
  | bol
  | eol
  | capOpen
  | capClose
  deriving DecidableEq, Repr

/-- A successful run of a pattern: the input left unread after the match, the
inputs seen at the closing brackets whose opening bracket lies further left, and the
texts of the groups that are complete. -/
structure Run where
  rest : List Char
  closes : List (List Char)
  groups : List (List Char)
  deriving DecidableEq, Repr

/-- Record a closing bracket reached with input `s` left. -/
def Run.closeAt (s : List Char) (m : Run) : Run :=
  { m with closes := s :: m.closes }

/-- Record an opening bracket reached with input `s` left: the group's text is
what lies between `s` and the input at the matching closing bracket. -/
def Run.openAt (s : List Char) (m : Run) : Run :=
  match m.closes with
  | cr :: cs => { m with closes := cs, groups := s.take (s.length - cr.length) :: m.groups }
  | [] => m

/-- Greedy repetition of `a`, then the continuation `k`: take one more rune
when possible, fall back to stopping here when the longer attempt fails.  The flag
says whether the input is still at the beginning of the text. -/
def starLoop (a : Atom) (k : Bool → List Char → Option Run) : Bool → List Char → Option Run
  | b, [] => k b []
  | b, c :: t =>
    if a.accepts c then
      match starLoop a k false t with
      | some m => some m
      | none => k b (c :: t)
    else k b (c :: t)

/-- Run a pattern at the head of the input. -/
def exec : List Inst → Bool → List Char → Option Run
  | [], _, s => some ⟨s, [], []⟩
  | .bol :: p, b, s => if b then exec p b s else none
  | .eol :: p, b, s => if s.isEmpty then exec p b s else none
  | .capOpen :: p, b, s => (exec p b s).map (Run.openAt s)
  | .capClose :: p, b, s => (exec p b s).map (Run.closeAt s)
  | .one _ :: _, _, [] => none
  | .one a :: p, _, c :: t => if a.accepts c then exec p false t else none
  | .star a :: p, b, s => starLoop a (exec p) b s
  | .plus _ :: _, _, [] => none
  | .plus a :: p, _, c :: t => if a.accepts c then starLoop a (exec p) false t else none
  | .quest _ :: p, b, [] => exec p b []
  | .quest a :: p, b, c :: t =>
    if a.accepts c then
      match exec p false t with
      | some m => some m
      | none => exec p b (c :: t)
    else exec p b (c :: t)

/-- Leftmost search: the first start position at which the pattern runs,
with the input from that position on. -/
def search (p : List Inst) : Bool → List Char → Option (List Char × Run)
  | b, [] => (exec p b []).map fun m => ([], m)
  | b, c :: t =>
    match exec p b (c :: t) with
    | some m => some (c :: t, m)
    | none => search p false t

/-- A compiled regular expression, given by the two methods the client calls. -/
structure Regexp where
  MatchString : String → Bool
  FindSubmatch : List Char → Option (List (List Char))

/-- The methods of a pattern of the fragment: `FindSubmatch` returns the text of the
leftmost match followed by the texts of its groups, `MatchString` whether there is a
match. -/
def Regexp.ofInsts (p : List Inst) : Regexp where
  MatchString s := (search p true s.data).isSome
  FindSubmatch b :=
    match search p true b with
    | none => none
    | some (start, m) => some (start.take (start.length - m.rest.length) :: m.groups)

/-- Errors, by the place that raises them. -/
inductive Err
  | logger
  | proxyURL (proxy : String)
  | transportType
  | regexpSyntax (expr : String)
  | httpStatus (status : String)
  | readBody
  | badResponse (body : List Char)
  | json
  deriving DecidableEq, Repr

/-- ASCII punctuation: the runes a backslash turns into themselves. -/
def isPunct (c : Char) : Bool :=
  decide (c.toNat < 128) && !(c.isAlphanum) && decide (32 < c.toNat) && decide (c.toNat ≠ 127)

/-- Whether the rune is a repetition operator. -/
def isRepeat (c : Char) : Bool :=
  c == Char.ofNat 42 || c == Char.ofNat 43 || c == Char.ofNat 63

/-- The item for atom `a` followed by the repetition operator `c`. -/
def repeatInst (a : Atom) (c : Char) : Inst :=
  if c == Char.ofNat 42 then .star a else if c == Char.ofNat 43 then .plus a else .quest a

/-- Read the repetition operator that may follow an atom; a second operator right
after it is refused. -/
def withRepeat (a : Atom) : List Char → Option (Inst × List Char)
  | [] => some (.one a, [])
  | c :: r =>
    if isRepeat c then
      match r with
      | [] => some (repeatInst a c, [])
      | d :: _ => if isRepeat d then none else some (repeatInst a c, r)
    else some (.one a, c :: r)

/-- Read one rune of a bracket class: a punctuation rune after a backslash, or a
rune that is neither a backslash nor an opening bracket. -/
def classChar : List Char → Option (Char × List Char)
  | [] => none
  | c :: r =>
    if c == Char.ofNat 92 then
      match r with
      | e :: r2 => if isPunct e then some (e, r2) else none
      | [] => none
    else if c == Char.ofNat 91 then none
    else some (c, r)

/-- Read the body of a bracket class up to its closing bracket; the first argument
bounds the number of steps.  An item is one rune, or a range: a rune, a hyphen that
does not stand right before the closing bracket, and a rune that is not smaller. -/
def parseClass : Nat → List Char → List (Char × Char) → Option (List (Char × Char) × List Char)
  | 0, _, _ => none
  | _ + 1, [], _ => none
  | n + 1, c :: r, acc =>
    if c == Char.ofNat 93 then (if acc.isEmpty then none else some (acc.reverse, r))
    else
      match classChar (c :: r) with
      | none => none
      | some (lo, r1) =>
        match r1 with
        | d :: x :: r2 =>
          if d == Char.ofNat 45 && x != Char.ofNat 93 then
            match classChar (x :: r2) with
            | none => none
            | some (hi, r3) =>
              if lo.toNat ≤ hi.toNat then parseClass n r3 ((lo, hi) :: acc) else none
          else parseClass n r1 ((lo, lo) :: acc)
        | _ => parseClass n r1 ((lo, lo) :: acc)

/-- Read a pattern: the first argument bounds the number of steps, `depth` counts
the open groups, `acc` holds the items read so far, last first.  `none` is a syntax
error (an unclosed or unopened bracket, a repetition operator with nothing to repeat
or right after another, a trailing backslash, a reversed range), or a construct
outside the fragment (alternation, a repeated group or anchor, counted or lazy
repetition, flags, escapes other than of punctuation, a bracket inside a class):
the fragment refuses some patterns that Go accepts, and reads the others as Go does. -/
def parseAux : Nat → List Char → Nat → List Inst → Option (List Inst)
  | 0, _, _, _ => none
  | _ + 1, [], depth, acc => if depth = 0 then some acc.reverse else none
  | n + 1, c :: r, depth, acc =>
    if c == Char.ofNat 92 then
      match r with
      | e :: r2 =>
        if isPunct e then
          match withRepeat (.lit e) r2 with
          | some (i, r3) => parseAux n r3 depth (i :: acc)
          | none => none
        else none
      | [] => none
    else if c == Char.ofNat 91 then
      match r with
      | x :: r2 =>
        match (if x == Char.ofNat 94 then (parseClass n r2 []).map (fun q => (true, q))
               else (parseClass n (x :: r2) []).map (fun q => (false, q))) with
        | some (neg, rs, r3) =>
          match withRepeat (.cls neg rs) r3 with
          | some (i, r4) => parseAux n r4 depth (i :: acc)
          | none => none
        | none => none
      | [] => none
    else if c == Char.ofNat 40 then
      match r with
      | x :: _ => if x == Char.ofNat 63 then none else parseAux n r (depth + 1) (.capOpen :: acc)
      | [] => none
    else if c == Char.ofNat 41 then
      match depth, r with
      | 0, _ => none
      | d + 1, [] => parseAux n [] d (.capClose :: acc)
      | d + 1, x :: r2 => if isRepeat x || x == Char.ofNat 123 then none
                          else parseAux n (x :: r2) d (.capClose :: acc)
    else if isRepeat c || c == Char.ofNat 124 || c == Char.ofNat 123 then none
    else if c == Char.ofNat 94 then
      match r with
      | x :: _ => if isRepeat x then none else parseAux n r depth (.bol :: acc)
      | [] => parseAux n r depth (.bol :: acc)
    else if c == Char.ofNat 36 then
      match r with
      | x :: _ => if isRepeat x then none else parseAux n r depth (.eol :: acc)
      | [] => parseAux n r depth (.eol :: acc)
    else
      match withRepeat (if c == Char.ofNat 46 then .dot else .lit c) r with
      | some (i, r3) => parseAux n r3 depth (i :: acc)
      | none => none

/-- The items of a pattern string. -/
def parsePattern (expr : String) : Option (List Inst) :=
  parseAux (expr.length + 1) expr.data 0 []

/-- Go's `regexp.Compile`, on the fragment. -/
def Compile (expr : String) : Except Err Regexp :=
  match parsePattern expr with
  | some p => .ok (Regexp.ofInsts p)
  | none => .error (.regexpSyntax expr)

/-- Go's `regexp.MustCompile`: `none` stands for its panic. -/
def MustCompile (expr : String) : Option Regexp :=
  match Compile expr with
  | .ok r => some r
  | .error _ => none

/-! ## `client/data.go` -/

/-- The struct `Warning`.  `WarnType` is the field `Type`; `t1` and `t2` cache the
start and end instants (`none` is the zero time), `uid` caches the uniqueness key. -/
structure Warning where
  ID : Int
  Location : String
  Start : Int
  End : Int
  WarnType : Int
  State : String
  Level : Int
  Description : String
  Event : String
  Headline : String
  Instruction : String
  StateShort : String
  AltitudeStart : Int
  AltitudeEnd : Int
  t1 : Option Int
  t2 : Option Int
  uid : String
  deriving DecidableEq, Repr

/-- The method `GetUniqueID`: the key is `Location/Event`, computed on first use and
cached in `uid`.  The receiver is a pointer, so the updated warning is returned
with the key. -/
def Warning.GetUniqueID (w : Warning) : String × Warning :=
  if w.uid = "" then
    let w1 := { w with uid := w.Location ++ "/" ++ w.Event }
    (w1.uid, w1)
  else (w.uid, w)

/-- A Go `map[int64][]Warning`, by its entries (the keys are pairwise distinct). -/
abbrev WarningMap := List (Int × List Warning)

/-- The struct `WeatherInfo`. -/
structure WeatherInfo where
  Time : Int
  Warnings : WarningMap
  PrelimWarnings : WarningMap
  Copyright : String
  deriving DecidableEq, Repr

/-- The order in which one `range` loop visits a map: Go leaves it to the runtime,
which visits every entry once. -/
structure RangeOrder where
  visit : WarningMap → WarningMap
  perm : ∀ m, (visit m).Perm m

/-! ## `client/client.go` -/

/-- A parsed URL. -/
structure URL where
  raw : String
  deriving DecidableEq, Repr

/-- The dynamic type of the interface value `http.Client.Transport`: `nil`, a
`*http.Transport` (with its `Proxy` setting), or another round tripper. -/
inductive RoundTripper
  | nil
  | httpTransport (Proxy : Option URL)
  | other
  deriving DecidableEq, Repr

/-- The fields of `http.Client` the client touches; `Timeout` is in seconds. -/
structure HttpClient where
  Transport : RoundTripper
  Timeout : Nat
  deriving DecidableEq, Repr

/-- A Go `chan Warning`, as its sender sees it: whether it is the nil channel, its
capacity, every warning sent to it so far (oldest first) and whether it is
closed. -/
structure Chan where
  isNil : Bool
  cap : Nat
  sent : List Warning
  closed : Bool
  deriving DecidableEq, Repr

/-- The nil channel. -/
def Chan.nil : Chan := { isNil := true, cap := 0, sent := [], closed := false }

/-- The value `make(chan Warning, cap)`. -/
def Chan.make (cap : Nat) : Chan := { isNil := false, cap := cap, sent := [], closed := false }

/-- How a send (or a run of sends) ends: it is done, it waits for ever, or it
panics.  The channel is given as it stands then. -/
inductive Sending
  | done (q : Chan)
  | blocked (q : Chan)
  | panicked

/-- The statement `q <- w`.  `taken` is the number of warnings the consumer receives
from the channel in all, however long the sender waits: the buffer has room for
this send when fewer than `taken + cap` warnings have been sent before it.  A send
to the nil channel waits for ever, a send to a closed channel panics. -/
def Chan.send (taken : Nat) (q : Chan) (w : Warning) : Sending :=
  if q.isNil then .blocked q
  else if q.closed then .panicked
  else if q.sent.length < taken + q.cap then .done { q with sent := q.sent ++ [w] }
  else .blocked q

/-- The statement `close(q)`; `none` stands for its panic, on the nil channel and on
a closed one. -/
def Chan.close (q : Chan) : Option Chan :=
  if q.isNil || q.closed then none else some { q with closed := true }

/-- The struct `Client`, without its logger, lock and control channels. -/
structure Client where
  lastStamp : Int
  active : Bool
  client : HttpClient
  locations : List Regexp
  WarnQueue : Chan

/-- The value `new(Client)`: every field zero, the transport a nil interface, the
queue a nil channel. -/
def Client.zero : Client :=
  { lastStamp := 0, active := false, client := { Transport := .nil, Timeout := 0 },
    locations := [], WarnQueue := Chan.nil }

/-- The pattern of a response: `regexp.MustCompile` applied to the source's
literal. -/
def respExpr : String := "^warnWetter[.]loadWarnings\\((.*)\\);"

/-- The package variable `respPattern`.  Were the literal refused, the program
would panic when the package is loaded; the fallback never matches. -/
def respPattern : Regexp :=
  match MustCompile respExpr with
  | some r => r
  | none => { MatchString := fun _ => false, FindSubmatch := fun _ => none }

/-- The compile loop of `New`: patterns are compiled in order and appended to the
list; the first error ends the loop. -/
def compileLocations (compile : String → Except Err Regexp) :
    List String → List Regexp → Except Err (List Regexp)
  | [], acc => .ok acc
  | l :: ls, acc =>
    match compile l with
    | .error e => .error e
    | .ok r => compileLocations compile ls (acc ++ [r])

/-- The function `New`.  `getLogger` is the outcome of `common.GetLogger`,
`urlParse` is `url.Parse` and `compile` is `regexp.Compile`. -/
def New (getLogger : Except Err Unit) (urlParse : String → Except Err URL)
    (compile : String → Except Err Regexp) (proxy : String) (locations : List String) :
    Except Err Client :=
  match getLogger with
  | .error e => .error e
  | .ok _ =>
    let c : Client := { Client.zero with
      WarnQueue := Chan.make 8, client := { Client.zero.client with Timeout := 90 } }
    let withProxy : Except Err Client :=
      if proxy ≠ "" then
        match urlParse proxy with
        | .error e => .error e
        | .ok u =>
          match c.client.Transport with
          | .httpTransport _ =>
            .ok { c with client := { c.client with Transport := .httpTransport (some u) } }
          | _ => .error .transportType
      else .ok c
    match withProxy with
    | .error e => .error e
    | .ok c =>
      match compileLocations compile locations [] with
      | .error e => .error e
      | .ok rs => .ok { c with locations := rs }

/-- An HTTP response as `FetchWarning` reads it: `Body` is the outcome of copying
the body into the buffer. -/
structure Response where
  StatusCode : Int
  Status : String
  Body : Except Err (List Char)

/-- The pair `(res, err)` that `c.client.Get(warnURL)` returns.  A request that
fails at transport level returns a nil response with the error. -/
structure GetResult where
  res : Option Response
  err : Option Err

/-- How a call ends: it returns, or the goroutine panics. -/
inductive Outcome (α : Type)
  | returned (r : α)
  | panicked

/-- The method `FetchWarning`, given the outcome of the GET.  An error of the GET
is logged and nothing else; `res.Body` is then read, which panics on a nil
response; `match[1]` panics when the match has no second element. -/
def FetchWarning (get : GetResult) : Outcome (Except Err (List Char)) :=
  match get.res with
  | none => .panicked
  | some res =>
    if res.StatusCode ≠ 200 then .returned (.error (.httpStatus res.Status))
    else
      match res.Body with
      | .error e => .returned (.error e)
      | .ok body =>
        match respPattern.FindSubmatch body with
        | none => .returned (.error (.badResponse body))
        | some (_ :: data :: _) => .returned (.ok data)
        | some _ => .panicked

/-- The innermost loop of `ProcessWarnings` and `checkWarnings`: the patterns are
tried in order and the first that matches the location ends the loop. -/
def matchLocations : List Regexp → Warning → Bool
  | [], _ => false
  | l :: ls, w => if l.MatchString w.Location then true else matchLocations ls w

/-- The loop over the warnings of one category: a warning with a matching pattern
gets the category key as its `ID` and is appended to `list`. -/
def collectItems (locations : List Regexp) (id : Int) : List Warning → List Warning → List Warning
  | [], list => list
  | w :: ws, list =>
    if matchLocations locations w then collectItems locations id ws (list ++ [{ w with ID := id }])
    else collectItems locations id ws list

/-- The loop over the categories of a map, in the order given. -/
def collectMap (locations : List Regexp) : WarningMap → List Warning → List Warning
  | [], list => list
  | (id, i) :: rest, list => collectMap locations rest (collectItems locations id i list)

/-- The method `ProcessWarnings`.  `unmarshal` is `json.Unmarshal` into a
`WeatherInfo`; `ordW` and `ordV` are the orders of the two `range` loops. -/
def ProcessWarnings (unmarshal : List Char → Except Err WeatherInfo) (ordW ordV : RangeOrder)
    (c : Client) (raw : List Char) : Except Err (List Warning) :=
  match unmarshal raw with
  | .error e => .error e
  | .ok info =>
    let list := collectMap c.locations (ordW.visit info.Warnings) []
    let list := collectMap c.locations (ordV.visit info.PrelimWarnings) list
    .ok list

/-- How a poll cycle ends: it returns, it waits for ever on a send, or the
goroutine panics.  The client's state is given as it stands then. -/
inductive Polled
  | returned (c : Client)
  | blocked (c : Client)
  | panicked

/-- The loop of `checkWarnings` over the warnings of one category: a warning with a
matching pattern gets the category key as its `ID` and is sent to the queue; a send
that does not go through ends the loop. -/
def sendItems (locations : List Regexp) (taken : Nat) (id : Int) : List Warning → Chan → Sending
  | [], q => .done q
  | w :: ws, q =>
    if matchLocations locations w then
      match q.send taken { w with ID := id } with
      | .done q1 => sendItems locations taken id ws q1
      | .blocked q1 => .blocked q1
      | .panicked => .panicked
    else sendItems locations taken id ws q

/-- The loop of `checkWarnings` over the categories of a map, in the order given. -/
def sendMap (locations : List Regexp) (taken : Nat) : WarningMap → Chan → Sending
  | [], q => .done q
  | (id, i) :: rest, q =>
    match sendItems locations taken id i q with
    | .done q1 => sendMap locations taken rest q1
    | .blocked q1 => .blocked q1
    | .panicked => .panicked

/-- The method `checkWarnings`, one poll cycle, given the outcome of the GET, the
orders of the two `range` loops and the number of warnings the consumer receives from
`WarnQueue` in all. -/
def checkWarnings (unmarshal : List Char → Except Err WeatherInfo) (get : GetResult)
    (ordW ordV : RangeOrder) (taken : Nat) (c : Client) : Polled :=
  match FetchWarning get with
  | .panicked => .panicked
  | .returned (.error _) => .returned c
  | .returned (.ok raw) =>
    match unmarshal raw with
    | .error _ => .returned c
    | .ok info =>
      if info.Time ≤ c.lastStamp then .returned c
      else
        let c := { c with lastStamp := info.Time }
        match sendMap c.locations taken (ordW.visit info.Warnings) c.WarnQueue with
        | .panicked => .panicked
        | .blocked q => .blocked { c with WarnQueue := q }
        | .done q =>
          match sendMap c.locations taken (ordV.visit info.PrelimWarnings) q with
          | .panicked => .panicked
          | .blocked q1 => .blocked { c with WarnQueue := q1 }
          | .done q1 => .returned { c with WarnQueue := q1 }

/-- The method `Start`: the flag is set and the loop task is started. -/
def Start (c : Client) : Client := { c with active := true }

/-- Where the caller of `Stop` stands: not yet in the call; past the locked
`c.active = false` and waiting to send on `stopQueue`; returned. -/
inductive StopPc
  | idle
  | sending
  | returned
  deriving DecidableEq, Repr

/-- Where the loop task stands: at the test `c.IsActive()`; in the `select`; past
the loop with the deferred calls still to run; finished; waiting for ever on a send
to `WarnQueue`; panicked. -/
inductive LoopPc
  | top
  | select
  | exiting
  | done
  | stuck
  | crashed
  deriving DecidableEq, Repr

/-- The client with the task that called `Stop` and the loop task. -/
structure Sys where
  c : Client
  stop : StopPc
  loop : LoopPc

/-- What one poll cycle meets: the outcome of its GET, the orders of its two
`range` loops and the number of warnings the consumer receives in all. -/
structure Cycle where
  get : GetResult
  ordW : RangeOrder
  ordV : RangeOrder
  taken : Nat

/-- The steps of the two tasks.  `stopEnter` is the locked `c.active = false` of
`Stop`; `stopSend` is `c.stopQueue <- 1` meeting `case <-c.stopQueue` of the
`select`, after which `Stop` returns and the loop task returns from `Loop`;
`loopTest` is the test `c.IsActive()`; `poll` is the ticker or the refresh case of the
`select` with its call of `checkWarnings`; `loopClose` is the deferred
`close(c.WarnQueue)`, with which the loop task ends. -/
inductive Action
  | stopEnter
  | stopSend
  | loopTest
  | poll (k : Cycle)
  | loopClose

/-- One step of `Stop` against `Loop`; `none` when the step cannot be taken.
`stopQueue` has no buffer, so the send is taken only with the loop task in the
`select`.  `checkWarnings` reads neither the flag nor `stopQueue`, so a cycle is one
step.  A panic takes the program down (its deferred calls run on the way): no step
is taken after it. -/
def step (unmarshal : List Char → Except Err WeatherInfo) (s : Sys) : Action → Option Sys
  | .stopEnter =>
    if s.stop = .idle ∧ s.loop ≠ .crashed then
      some { s with c := { s.c with active := false }, stop := .sending }
    else none
  | .stopSend =>
    if s.stop = .sending ∧ s.loop = .select then
      some { s with stop := .returned, loop := .exiting }
    else none
  | .loopTest =>
    if s.loop = .top then some { s with loop := if s.c.active then .select else .exiting }
    else none
  | .poll k =>
    if s.loop = .select then
      match checkWarnings unmarshal k.get k.ordW k.ordV k.taken s.c with
      | .returned c1 => some { s with c := c1, loop := .top }
      | .blocked c1 => some { s with c := c1, loop := .stuck }
      | .panicked => some { s with loop := .crashed }
    else none
  | .loopClose =>
    if s.loop = .exiting then
      match s.c.WarnQueue.close with
      | some q => some { s with c := { s.c with WarnQueue := q }, loop := .done }
      | none => some { s with loop := .crashed }
    else none

/-- A run: the steps taken one after the other; `none` when one cannot be taken. -/
def run (unmarshal : List Char → Except Err WeatherInfo) : Sys → List Action → Option Sys
  | s, [] => some s
  | s, a :: as =>
    match step unmarshal s a with
    | some s1 => run unmarshal s1 as
    | none => none

/-- The state right after `Start`: the flag is set, the loop task is at its test and
`Stop` is not yet called. -/
def Sys.started (c : Client) : Sys := { c := Start c, stop := .idle, loop := .top }

/-! ## Notions used in the statements, and the data of the examples -/

/-- The items of `respPattern`. -/
def respInsts : List Inst :=
  .bol :: ("warnWetter".data.map fun c => Inst.one (.lit c)) ++ [.one (.cls false [('.', '.')])] ++
    ("loadWarnings(".data.map fun c => Inst.one (.lit c)) ++
    [.capOpen, .star .dot, .capClose, .one (.lit ')'), .one (.lit ';')]

/-- The atom accepts the rune `c` and no other. -/
def Atom.only (a : Atom) (c : Char) : Prop := ∀ x, a.accepts x = true ↔ x = c

/-- The opening text of the wrapper. -/
def wrapOpen : List Char := "warnWetter.loadWarnings(".data

/-- The closing text of the wrapper. -/
def wrapClose : List Char := ");".data

/-- The items of `respPattern` after the group's opening bracket is read. -/
def closeInsts : List Inst := [.capClose, .one (.lit ')'), .one (.lit ';')]

/-- The opening text of `respPattern`, each rune with the atom that reads it. -/
def respText : List (Atom × Char) :=
  ("warnWetter".data.map fun c => (Atom.lit c, c)) ++ [(.cls false [('.', '.')], '.')] ++
    ("loadWarnings(".data.map fun c => (Atom.lit c, c))

/-- A warning as the decoder leaves it when the entry gives only these two names:
every other field is zero and no key is cached. -/
def Warning.named (location event : String) : Warning :=
  { ID := 0, Location := location, Start := 0, End := 0, WarnType := 0, State := "", Level := 0,
    Description := "", Event := event, Headline := "", Instruction := "", StateShort := "",
    AltitudeStart := 0, AltitudeEnd := 0, t1 := none, t2 := none, uid := "" }

/-- The warning with `ID` set to a category key. -/
def Warning.withID (id : Int) (w : Warning) : Warning := { w with ID := id }

/-- Whether some pattern of the list matches the warning's location. -/
def relevant (locations : List Regexp) (w : Warning) : Bool :=
  locations.any fun l => l.MatchString w.Location

/-- The warnings of a map, each with the key of its category as `ID`. -/
def keyed (m : WarningMap) : List Warning :=
  m.flatMap fun e => e.2.map (Warning.withID e.1)

/-- What the loops emit for one category: its matching warnings, in the order of
the document, with the category key as `ID`. -/
def emitted (locations : List Regexp) (e : Int × List Warning) : List Warning :=
  (e.2.filter (relevant locations)).map (Warning.withID e.1)

/-- The cycle fetches and parses the document `info` from the text `raw`. -/
def Cycle.reads (unmarshal : List Char → Except Err WeatherInfo) (k : Cycle) (raw : List Char)
    (info : WeatherInfo) : Prop :=
  FetchWarning k.get = .returned (.ok raw) ∧ unmarshal raw = .ok info

/-- The times of the documents that a sequence of poll cycles forwards, in the
order of the cycles.  A cycle forwards its document when it returns with the
last-seen timestamp changed; the new timestamp is the time of the document.  A cycle
that panics or waits for ever ends the sequence. -/
def forwardedTimes (unmarshal : List Char → Except Err WeatherInfo) : Client → List Cycle → List Int
  | _, [] => []
  | c, k :: ks =>
    match checkWarnings unmarshal k.get k.ordW k.ordV k.taken c with
    | .returned c1 =>
      if c1.lastStamp ≠ c.lastStamp then c1.lastStamp :: forwardedTimes unmarshal c1 ks
      else forwardedTimes unmarshal c1 ks
    | _ => []

/-- A sequence of poll cycles run one after the other, as `Loop` does: the outcome
of the last one, or of the first that does not return. -/
def runCycles (unmarshal : List Char → Except Err WeatherInfo) : Client → List Cycle → Polled
  | c, [] => .returned c
  | c, k :: ks =>
    match checkWarnings unmarshal k.get k.ordW k.ordV k.taken c with
    | .returned c1 => runCycles unmarshal c1 ks
    | r => r

/-- The queue lets `n` more sends through: none is needed, or it is made, open and
fewer than `taken + cap` warnings are sent before the last of them. -/
def Chan.takes (q : Chan) (taken n : Nat) : Prop :=
  n = 0 ∨ (q.isNil = false ∧ q.closed = false ∧ q.sent.length + n ≤ taken + q.cap)

/-- Sends of the warnings of a list, one after the other, up to the first that does
not go through. -/
def Chan.sendAll (taken : Nat) : Chan → List Warning → Sending
  | q, [] => .done q
  | q, w :: ws =>
    match q.send taken w with
    | .done q1 => Chan.sendAll taken q1 ws
    | .blocked q1 => .blocked q1
    | .panicked => .panicked

/-- The loop task is neither at its test nor in its `select`: it will not poll
again. -/
def Sys.quiet (s : Sys) : Prop := s.loop ≠ .top ∧ s.loop ≠ .select

/-- The client that `New` returns for no proxy and the one pattern `Helgoland`. -/
def helgolandClient : Client :=
  match New (.ok ()) (fun s => .ok ⟨s⟩) Compile "" ["Helgoland"] with
  | .ok c => c
  | .error _ => Client.zero

/-- The order that visits the entries as they are listed. -/
def RangeOrder.listed : RangeOrder := ⟨fun m => m, fun _ => List.Perm.refl _⟩

/-- The text of a document with the given time and, in category 1 of `warnings`,
one entry that gives only its region name. -/
def docText (time region : String) : List Char :=
  ("\x7b\"time\":" ++ time ++ ",\"warnings\":\x7b\"1\":[\x7b\"regionName\":\"" ++ region ++
    "\"\x7d]\x7d\x7d").data

/-- The document of that text. -/
def docAt (time : Int) (region : String) : WeatherInfo :=
  { Time := time, Warnings := [(1, [Warning.named region ""])], PrelimWarnings := [], Copyright := "" }

/-- The text of a document with the given time and, in category 1 of `warnings`,
`n` entries that give only the region name Helgoland. -/
def crowdText (time : String) (n : Nat) : List Char :=
  ("\x7b\"time\":" ++ time ++ ",\"warnings\":\x7b\"1\":[" ++
    ",".intercalate (List.replicate n "\x7b\"regionName\":\"Helgoland\"\x7d") ++ "]\x7d\x7d").data

/-- The document of that text. -/
def crowdAt (time : Int) (n : Nat) : WeatherInfo :=
  { Time := time, Warnings := [(1, List.replicate n (Warning.named "Helgoland" ""))],
    PrelimWarnings := [], Copyright := "" }

/-- What `json.Unmarshal` returns on the texts used in the examples. -/
def decodeSamples (raw : List Char) : Except Err WeatherInfo :=
  if raw = docText "1627052765000" "Starnberger See" then .ok (docAt 1627052765000 "Starnberger See")
  else if raw = docText "100" "Helgoland" then .ok (docAt 100 "Helgoland")
  else if raw = docText "50" "Helgoland" then .ok (docAt 50 "Helgoland")
  else if raw = docText "60" "Helgoland" then .ok (docAt 60 "Helgoland")
  else if raw = crowdText "100" 9 then .ok (crowdAt 100 9)
  else .error .json

/-- The cycle whose GET is answered with status 200 and the wrapped text, with a
consumer that receives `taken` warnings in all. -/
def Cycle.answering (raw : List Char) (taken : Nat) : Cycle :=
  { get := ⟨some ⟨200, "200 OK", .ok (wrapOpen ++ raw ++ wrapClose)⟩, none⟩,
    ordW := RangeOrder.listed, ordV := RangeOrder.listed, taken := taken }

/-! ## The response pattern

`respPattern` is the item list `respInsts`; its opening text is read rune by rune, the
group is a greedy run of runes other than the newline, and the closing text follows. -/

/-- The source's literal parses to `respInsts`. -/
theorem parse_respExpr : parsePattern respExpr = some respInsts := by decide

/-- `respPattern` is the compiled item list `respInsts`. -/
theorem respPattern_eq : respPattern = Regexp.ofInsts respInsts := by
  simp [respPattern, MustCompile, Compile, parse_respExpr]

/-- Runes with the same code point are equal. -/
theorem char_toNat_inj {x y : Char} (h : x.toNat = y.toNat) : x = y := by
  apply Char.ext
  apply UInt32.ext
  exact h

/-- A literal accepts its own rune only. -/
theorem accepts_lit (c x : Char) : (Atom.lit c).accepts x = true ↔ x = c := by
  simp [Atom.accepts]

/-- The dot accepts every rune but the newline. -/
theorem accepts_dot (x : Char) : Atom.dot.accepts x = true ↔ x ≠ Char.ofNat 10 := by
  simp [Atom.accepts]

/-- A class with the one range from `d` to `d` accepts `d` only. -/
theorem accepts_cls_single (d x : Char) : (Atom.cls false [(d, d)]).accepts x = true ↔ x = d := by
  simp [Atom.accepts]
  constructor
  · rintro ⟨h1, h2⟩
    exact char_toNat_inj (le_antisymm h2 h1)
  · rintro rfl
    exact ⟨le_refl _, le_refl _⟩

/-- A pattern that opens with fixed text runs only on inputs that open with that text, and then
as the rest of the pattern runs on the rest of the input. -/
theorem exec_text_some (acs : List (Atom × Char)) (h : ∀ ac ∈ acs, ac.1.only ac.2)
    (p : List Inst) : ∀ b s m, exec (acs.map (fun ac => Inst.one ac.1) ++ p) b s = some m →
      ∃ s1 b1, s = acs.map Prod.snd ++ s1 ∧ exec p b1 s1 = some m := by
  induction acs with
  | nil => intro b s m hm; exact ⟨s, b, rfl, hm⟩
  | cons ac acs ih =>
    intro b s m hm
    have hac := h ac (List.mem_cons_self _ _)
    cases s with
    | nil => simp [exec] at hm
    | cons x t =>
      simp only [List.map_cons, List.cons_append, exec] at hm
      by_cases hx : ac.1.accepts x = true
      · rw [if_pos hx] at hm
        obtain ⟨s1, b1, hs, he⟩ := ih (fun a ha => h a (List.mem_cons_of_mem _ ha)) false t m hm
        refine ⟨s1, b1, ?_, he⟩
        rw [hs, (hac x).1 hx]
        rfl
      · rw [if_neg hx] at hm
        cases hm

/-- On an input that opens with the fixed text, the pattern runs as its rest does on the rest of
the input. -/
theorem exec_text_append (acs : List (Atom × Char)) (h : ∀ ac ∈ acs, ac.1.only ac.2)
    (p : List Inst) : ∀ b s, ∃ b1,
      exec (acs.map (fun ac => Inst.one ac.1) ++ p) b (acs.map Prod.snd ++ s) = exec p b1 s := by
  induction acs with
  | nil => intro b s; exact ⟨b, rfl⟩
  | cons ac acs ih =>
    intro b s
    have hac := h ac (List.mem_cons_self _ _)
    obtain ⟨b1, hb1⟩ := ih (fun a ha => h a (List.mem_cons_of_mem _ ha)) false s
    refine ⟨b1, ?_⟩
    simp only [List.map_cons, List.cons_append, exec]
    rw [if_pos ((hac ac.2).2 rfl)]
    exact hb1

/-- A pattern anchored with `^` finds nothing once the search has left the beginning of the text. -/
theorem search_bol (p : List Inst) : ∀ s, search (.bol :: p) false s = none := by
  intro s
  induction s with
  | nil => simp [search, exec]
  | cons c t ih => simp [search, exec, ih]

/-- A pattern anchored with `^` matches at the beginning of the text or not at all. -/
theorem search_bol_true (p : List Inst) (s : List Char) :
    search (.bol :: p) true s = (exec p true s).map fun m => (s, m) := by
  cases s with
  | nil => simp [search, exec]
  | cons c t =>
    simp only [search, exec, if_true]
    cases h : exec p true (c :: t) with
    | none => simp [search_bol]
    | some m => simp

/-- The items after the group run exactly on inputs that open with `);`. -/
theorem exec_closeInsts (b : Bool) (s : List Char) (m : Run) :
    exec closeInsts b s = some m ↔ ∃ rest, s = wrapClose ++ rest ∧ m = ⟨rest, [s], []⟩ := by
  unfold closeInsts wrapClose
  rcases s with _ | ⟨x, _ | ⟨y, r⟩⟩
  · simp [exec]
  · simp only [exec, Option.map_eq_some', Atom.accepts]
    by_cases hx : x = ')'
    · simp [hx, exec]
    · simp [hx]
  · simp only [exec, Atom.accepts]
    by_cases hx : x = ')'
    · by_cases hy : y = ';'
      · subst hx hy
        simp [Run.closeAt]
        constructor
        · intro h; exact h.symm
        · intro h; exact h.symm
      · simp [hx, hy]
    · simp [hx]

/-- When the group followed by `);` runs on `s`, then `s` is a text without a line break, `);` and a
rest. -/
theorem starLoop_dot_some (s : List Char) : ∀ b m, starLoop .dot (exec closeInsts) b s = some m →
    ∃ p rest, Char.ofNat 10 ∉ p ∧ s = p ++ wrapClose ++ rest ∧
      m = ⟨rest, [wrapClose ++ rest], []⟩ := by
  induction s with
  | nil =>
    intro b m h
    simp only [starLoop] at h
    obtain ⟨rest, hs, _⟩ := (exec_closeInsts b [] m).1 h
    simp [wrapClose] at hs
  | cons c t ih =>
    intro b m h
    have base : exec closeInsts b (c :: t) = some m →
        ∃ p rest, Char.ofNat 10 ∉ p ∧ c :: t = p ++ wrapClose ++ rest ∧
          m = ⟨rest, [wrapClose ++ rest], []⟩ := by
      intro hk
      obtain ⟨rest, hs, hm⟩ := (exec_closeInsts b (c :: t) m).1 hk
      exact ⟨[], rest, by simp, by simpa using hs, by rw [hm, hs]⟩
    simp only [starLoop] at h
    by_cases hc : Atom.dot.accepts c = true
    · rw [if_pos hc] at h
      cases hr : starLoop .dot (exec closeInsts) false t with
      | none => rw [hr] at h; exact base h
      | some m1 =>
        rw [hr] at h
        have e : m1 = m := Option.some.inj h
        obtain ⟨p, rest, hp, hs, hm⟩ := ih false m1 hr
        refine ⟨c :: p, rest, ?_, by rw [hs]; rfl, e ▸ hm⟩
        intro hmem
        rcases List.mem_cons.1 hmem with h1 | h1
        · exact (accepts_dot c).1 hc h1.symm
        · exact hp h1
    · rw [if_neg hc] at h
      exact base h

/-- The group followed by `);` runs on every text without a line break followed by `);`. -/
theorem starLoop_dot_isSome (p rest : List Char) (hp : Char.ofNat 10 ∉ p) :
    ∀ b, (starLoop .dot (exec closeInsts) b (p ++ wrapClose ++ rest)).isSome = true := by
  have hk : ∀ b s, (exec closeInsts b (wrapClose ++ s)).isSome = true := by
    intro b s
    rw [(exec_closeInsts b (wrapClose ++ s) _).2 ⟨s, rfl, rfl⟩]
    rfl
  induction p with
  | nil =>
    intro b
    simp only [List.nil_append, wrapClose, List.cons_append, starLoop]
    have := hk b rest
    simp only [wrapClose, List.cons_append, List.nil_append] at this
    split
    · split
      · rfl
      · exact this
    · exact this
  | cons c t ih =>
    intro b
    have hc : Atom.dot.accepts c = true :=
      (accepts_dot c).2 (fun h => hp (h ▸ List.mem_cons_self _ _))
    have := ih (fun h => hp (List.mem_cons_of_mem _ h)) false
    simp only [List.cons_append, starLoop, if_pos hc]
    cases hr : starLoop .dot (exec closeInsts) false (t ++ wrapClose ++ rest) with
    | none => rw [hr] at this; cases this
    | some m => rfl

/-- On a text without a line break followed by `);` and nothing else, the group takes the whole
text. -/
theorem starLoop_dot_exact (p : List Char) (hp : Char.ofNat 10 ∉ p) :
    ∀ b, starLoop .dot (exec closeInsts) b (p ++ wrapClose) = some ⟨[], [wrapClose], []⟩ := by
  induction p with
  | nil => intro b; cases b <;> decide
  | cons c t ih =>
    intro b
    have hc : Atom.dot.accepts c = true :=
      (accepts_dot c).2 (fun h => hp (h ▸ List.mem_cons_self _ _))
    rw [List.cons_append, starLoop, if_pos hc, ih (fun h => hp (List.mem_cons_of_mem _ h)) false]

/-- The items of `respPattern`: the anchor, the opening text, the group, the closing text. -/
theorem respInsts_eq :
    respInsts = .bol :: (respText.map (fun ac => Inst.one ac.1) ++ (.capOpen :: .star .dot :: closeInsts)) := by
  decide

/-- The runes of `respText` spell the opening text of the wrapper. -/
theorem respText_snd : respText.map Prod.snd = wrapOpen := by decide

/-- Each atom of `respText` accepts its rune only. -/
theorem respText_only : ∀ ac ∈ respText, ac.1.only ac.2 := by
  intro ac h
  simp only [respText, List.mem_append, List.mem_map, List.mem_singleton] at h
  rcases h with (⟨c, _, rfl⟩ | rfl) | ⟨c, _, rfl⟩
  · exact accepts_lit c
  · exact accepts_cls_single _
  · exact accepts_lit c

/-- Dropping a suffix by its length leaves the rest. -/
theorem take_sub_length (p q : List Char) : (p ++ q).take ((p ++ q).length - q.length) = p := by
  simp

/-- `respPattern.FindSubmatch` in terms of one run at the beginning of the body. -/
theorem find_eq (body : List Char) : respPattern.FindSubmatch body =
    match exec (respText.map (fun ac => Inst.one ac.1) ++ (.capOpen :: .star .dot :: closeInsts)) true body with
    | none => none
    | some m => some (body.take (body.length - m.rest.length) :: m.groups) := by
  rw [respPattern_eq, respInsts_eq]
  simp only [Regexp.ofInsts, search_bol_true]
  cases exec (respText.map (fun ac => Inst.one ac.1) ++ (.capOpen :: .star .dot :: closeInsts)) true body <;> rfl

/-- A body that `respPattern` matches is the opening text, a payload without a line break, `);` and a
rest; the match holds the text up to the `);` and the payload. -/
theorem find_some (body : List Char) (r : List (List Char))
    (h : respPattern.FindSubmatch body = some r) :
    ∃ p rest, Char.ofNat 10 ∉ p ∧ body = wrapOpen ++ p ++ wrapClose ++ rest ∧
      r = [wrapOpen ++ p ++ wrapClose, p] := by
  rw [find_eq] at h
  cases he : exec (respText.map (fun ac => Inst.one ac.1) ++ (.capOpen :: .star .dot :: closeInsts)) true body with
  | none => rw [he] at h; cases h
  | some m =>
    rw [he] at h
    obtain ⟨s1, b1, hs, ht⟩ := exec_text_some respText respText_only _ true body m he
    rw [respText_snd] at hs
    simp only [exec, Option.map_eq_some'] at ht
    obtain ⟨m0, hm0, hm⟩ := ht
    obtain ⟨p, rest, hp, hs1, hm0v⟩ := starLoop_dot_some s1 b1 m0 hm0
    have e1 : body = (wrapOpen ++ p ++ wrapClose) ++ rest := by
      rw [hs, hs1]; simp only [List.append_assoc]
    have e2 : s1 = p ++ (wrapClose ++ rest) := by rw [hs1, List.append_assoc]
    refine ⟨p, rest, hp, e1, ?_⟩
    have hr := (Option.some.inj h).symm
    have hmv : m = ⟨rest, [], [p]⟩ := by
      rw [← hm, hm0v, e2]
      simp only [Run.openAt, take_sub_length]
    rw [hr, hmv]
    simp only
    rw [e1, take_sub_length]

/-- The group and what follows it, as a greedy loop. -/
theorem exec_tail (b : Bool) (s : List Char) :
    exec (.capOpen :: .star .dot :: closeInsts) b s =
      (starLoop .dot (exec closeInsts) b s).map (Run.openAt s) := rfl

/-- `respPattern` matches every body made of the opening text, a payload without a line break, `);`
and a rest. -/
theorem find_isSome (p rest : List Char) (hp : Char.ofNat 10 ∉ p) :
    (respPattern.FindSubmatch (wrapOpen ++ p ++ wrapClose ++ rest)).isSome = true := by
  rw [find_eq]
  obtain ⟨b1, hb1⟩ := exec_text_append respText respText_only
    (.capOpen :: .star .dot :: closeInsts) true (p ++ wrapClose ++ rest)
  rw [respText_snd] at hb1
  have e : wrapOpen ++ p ++ wrapClose ++ rest = wrapOpen ++ (p ++ wrapClose ++ rest) := by
    simp only [List.append_assoc]
  rw [e, hb1]
  have hs := starLoop_dot_isSome p rest hp b1
  rw [exec_tail]
  cases hl : starLoop .dot (exec closeInsts) b1 (p ++ wrapClose ++ rest) with
  | none => rw [hl] at hs; cases hs
  | some m => rfl

/-- On the opening text, a payload without a line break and `);`, the group of `respPattern` is the
payload. -/
theorem find_exact (p : List Char) (hp : Char.ofNat 10 ∉ p) :
    respPattern.FindSubmatch (wrapOpen ++ p ++ wrapClose) =
      some [wrapOpen ++ p ++ wrapClose, p] := by
  rw [find_eq]
  obtain ⟨b1, hb1⟩ := exec_text_append respText respText_only
    (.capOpen :: .star .dot :: closeInsts) true (p ++ wrapClose)
  rw [respText_snd] at hb1
  have e : wrapOpen ++ p ++ wrapClose = wrapOpen ++ (p ++ wrapClose) := by
    simp only [List.append_assoc]
  rw [e, hb1, exec_tail, starLoop_dot_exact p hp b1]
  simp only [Option.map_some', Run.openAt, List.length_nil, Nat.sub_zero, List.take_length,
    take_sub_length]

/-! ## `FetchWarning` -/

/-- `FetchWarning` on a response with status 200 whose body was read: the unwrapping step. -/
theorem FetchWarning_body (status : String) (err : Option Err) (body : List Char) :
    FetchWarning ⟨some ⟨200, status, .ok body⟩, err⟩ =
      match respPattern.FindSubmatch body with
      | none => .returned (.error (.badResponse body))
      | some (_ :: data :: _) => .returned (.ok data)
      | some _ => .panicked := by
  simp only [FetchWarning, ne_eq, not_true_eq_false, if_false]

/-- A status-200 response whose body is the wrapped payload `p`, free of line
breaks, is unwrapped to `p`. -/
theorem FetchWarning_wrapped (status : String) (err : Option Err) (p : List Char)
    (hp : Char.ofNat 10 ∉ p) :
    FetchWarning ⟨some ⟨200, status, .ok (wrapOpen ++ p ++ wrapClose)⟩, err⟩ = .returned (.ok p) := by
  rw [FetchWarning_body, find_exact p hp]

/-- C4 (amended): the unwrapping step of `FetchWarning` fails, with an error that carries the body and
no data, exactly for the bodies that do not begin with `warnWetter.loadWarnings(`, a payload without a
line break, and `);`. Text after the `);` is not looked at. -/
theorem unwrap_fails_iff (status : String) (err : Option Err) (body : List Char) :
    FetchWarning ⟨some ⟨200, status, .ok body⟩, err⟩ = .returned (.error (.badResponse body)) ↔
      ¬ ∃ p rest, Char.ofNat 10 ∉ p ∧ body = wrapOpen ++ p ++ wrapClose ++ rest := by
  constructor
  · rintro h ⟨p, rest, hp, rfl⟩
    have hs := find_isSome p rest hp
    cases hf : respPattern.FindSubmatch (wrapOpen ++ p ++ wrapClose ++ rest) with
    | none => rw [hf] at hs; cases hs
    | some r =>
      obtain ⟨p1, rest1, _, _, hr⟩ := find_some _ r hf
      rw [FetchWarning_body, hf, hr] at h
      cases h
  · intro h
    cases hf : respPattern.FindSubmatch body with
    | none => rw [FetchWarning_body, hf]
    | some r =>
      obtain ⟨p1, rest1, hp1, hb, _⟩ := find_some _ r hf
      exact absurd ⟨p1, rest1, hp1, hb⟩ h

/-- Witness of C4: an error page is not of the wrapper's form and is refused. -/
theorem unwrap_fails_iff_witness :
    FetchWarning ⟨some ⟨200, "200 OK", .ok "Service Unavailable".data⟩, none⟩ =
      .returned (.error (.badResponse "Service Unavailable".data)) :=
  (unwrap_fails_iff "200 OK" none "Service Unavailable".data).2 (by
    rintro ⟨p, rest, _, h⟩
    simp [wrapOpen] at h)

/-- C4 (counterexample): a body with text after the `);` is not of the form `warnWetter.loadWarnings(`,
payload, `);`, and yet it is unwrapped: the call returns the payload and no error. -/
theorem unwrap_trailing_text_accepted :
    (¬ ∃ p, "warnWetter.loadWarnings(\x7b\x7d);garbage".data = wrapOpen ++ p ++ wrapClose) ∧
      FetchWarning ⟨some ⟨200, "200 OK", .ok "warnWetter.loadWarnings(\x7b\x7d);garbage".data⟩, none⟩ =
        .returned (.ok "\x7b\x7d".data) := by
  constructor
  · rintro ⟨p, h⟩
    have h2 := congrArg (fun l => l.reverse.head?) h
    simp [wrapClose] at h2
  · rfl

/-- C5 (amended): for every payload `p` without a line break, unwrapping the body
`warnWetter.loadWarnings(` ++ `p` ++ `);` succeeds and returns exactly `p`. -/
theorem unwrap_roundtrip (status : String) (err : Option Err) (p : List Char)
    (hp : Char.ofNat 10 ∉ p) :
    FetchWarning ⟨some ⟨200, status, .ok (wrapOpen ++ p ++ wrapClose)⟩, err⟩ = .returned (.ok p) := by
  rw [FetchWarning_body, find_exact p hp]

/-- Witness of C5: a one-line document. -/
theorem unwrap_roundtrip_witness :
    Char.ofNat 10 ∉ "\x7b\"time\":1627052765000\x7d".data ∧
      FetchWarning ⟨some ⟨200, "200 OK",
        .ok (wrapOpen ++ "\x7b\"time\":1627052765000\x7d".data ++ wrapClose)⟩, none⟩ =
        .returned (.ok "\x7b\"time\":1627052765000\x7d".data) :=
  ⟨by decide, unwrap_roundtrip "200 OK" none _ (by decide)⟩

/-- C5 (counterexample): the JSON payload made of an opening brace, a line break and a closing brace
is wrapped as the service does, and the unwrapping fails. -/
theorem unwrap_line_break_rejected :
    FetchWarning ⟨some ⟨200, "200 OK", .ok (wrapOpen ++ "\x7b\n\x7d".data ++ wrapClose)⟩, none⟩ =
      .returned (.error (.badResponse (wrapOpen ++ "\x7b\n\x7d".data ++ wrapClose))) := by
  rfl

/-- C7 (the code at the failing input): when the GET fails at transport level, so that there is no
response, `FetchWarning` does not return: it panics on `res.Body`. -/
theorem FetchWarning_transport_failure_panics (e : Err) :
    FetchWarning ⟨none, some e⟩ = .panicked := rfl

/-! ## `New` -/

/-- The compile loop fails when `compile` refuses one of the patterns. -/
theorem compileLocations_error (compile : String → Except Err Regexp) (ls : List String) :
    ∀ acc, (∃ l ∈ ls, ∃ e, compile l = .error e) → ∃ e, compileLocations compile ls acc = .error e := by
  induction ls with
  | nil => rintro acc ⟨l, hl, _⟩; cases hl
  | cons x xs ih =>
    rintro acc ⟨l, hl, e, he⟩
    cases hx : compile x with
    | error e1 => exact ⟨e1, by simp [compileLocations, hx]⟩
    | ok r =>
      simp only [compileLocations, hx]
      rcases List.mem_cons.1 hl with rfl | h1
      · rw [hx] at he; cases he
      · exact ih _ ⟨l, h1, e, he⟩

/-- A client that `New` returns holds the compiled patterns. -/
theorem New_locations (urlParse : String → Except Err URL) (compile : String → Except Err Regexp)
    (locations : List String) (c : Client)
    (h : New (.ok ()) urlParse compile "" locations = .ok c) :
    compileLocations compile locations [] = .ok c.locations := by
  simp only [New, ne_eq, not_true_eq_false, if_false] at h
  cases hc : compileLocations compile locations [] with
  | error e => rw [hc] at h; cases h
  | ok rs =>
    rw [hc] at h
    cases h
    rfl

/-- C6 (the code at the failing input): the call of `TestClientCreate` returns an error whatever the
logger, `url.Parse` and `regexp.Compile` do; with a logger and a proxy string that parses, the error is
the one of the type switch, which finds the nil transport of the fresh `http.Client`. -/
theorem New_test_call_fails :
    (∀ (getLogger : Except Err Unit) (urlParse : String → Except Err URL)
        (compile : String → Except Err Regexp),
        ∃ e, New getLogger urlParse compile "Bielefeld" ["Berchtesgaden", "Diepholz"] = .error e) ∧
      (∀ (compile : String → Except Err Regexp) (u : URL),
        New (.ok ()) (fun _ => .ok u) compile "Bielefeld" ["Berchtesgaden", "Diepholz"] =
          .error .transportType) := by
  constructor
  · intro getLogger urlParse compile
    cases hg : getLogger with
    | error e => exact ⟨e, by simp [New]⟩
    | ok _ =>
      cases hu : urlParse "Bielefeld" with
      | error e => exact ⟨e, by simp [New, hu]⟩
      | ok u => exact ⟨.transportType, by simp [New, hu, Client.zero]⟩
  · intro compile u
    simp [New, Client.zero]

/-- C8 (amended): with no proxy configured, `New` fails, returning an error and no client, whenever
some pattern of the list is refused by `regexp.Compile`. -/
theorem New_fails_on_bad_pattern (getLogger : Except Err Unit)
    (urlParse : String → Except Err URL) (compile : String → Except Err Regexp)
    (locations : List String) (h : ∃ l ∈ locations, ∃ e, compile l = .error e) :
    ∃ e, New getLogger urlParse compile "" locations = .error e := by
  obtain ⟨e, he⟩ := compileLocations_error compile locations [] h
  cases hg : getLogger with
  | error e1 => exact ⟨e1, by simp [New]⟩
  | ok _ => exact ⟨e, by simp [New, he]⟩

/-- Witness of C8: the second pattern has a doubled repetition operator. -/
theorem New_fails_on_bad_pattern_witness :
    (∃ l ∈ ["Kreis Vechta", "Helgoland**"], ∃ e, Compile l = .error e) ∧
      ∃ e, New (.ok ()) (fun s => .ok ⟨s⟩) Compile "" ["Kreis Vechta", "Helgoland**"] = .error e :=
  ⟨⟨"Helgoland**", by simp, _, rfl⟩,
    New_fails_on_bad_pattern (.ok ()) (fun s => .ok ⟨s⟩) Compile _ ⟨"Helgoland**", by simp, _, rfl⟩⟩

/-- C8 (counterexample): the empty string is a pattern `regexp.Compile` accepts (it matches every
location), so `New` with the pattern list holding just the empty string returns a client. -/
theorem New_accepts_empty_pattern :
    ∃ c, New (.ok ()) (fun s => .ok ⟨s⟩) Compile "" [""] = .ok c ∧
      c.locations.map (fun l => l.MatchString "Helgoland") = [true] :=
  ⟨_, rfl, by decide⟩

/-! ## `GetUniqueID` -/

/-- Two texts that are cut by the same separator, which their first parts do not contain, have the
same parts. -/
theorem split_at_sep (sep : Char) : ∀ (l1 l2 e1 e2 : List Char), sep ∉ l1 → sep ∉ l2 →
    l1 ++ sep :: e1 = l2 ++ sep :: e2 → l1 = l2 ∧ e1 = e2 := by
  intro l1
  induction l1 with
  | nil =>
    intro l2 e1 e2 _ h2 h
    cases l2 with
    | nil => simpa using h
    | cons y ys =>
      simp only [List.nil_append, List.cons_append, List.cons.injEq] at h
      exact absurd (h.1 ▸ List.mem_cons_self _ _) h2
  | cons x xs ih =>
    intro l2 e1 e2 h1 h2 h
    cases l2 with
    | nil =>
      simp only [List.nil_append, List.cons_append, List.cons.injEq] at h
      exact absurd (h.1 ▸ List.mem_cons_self _ _) h1
    | cons y ys =>
      simp only [List.cons_append, List.cons.injEq] at h
      obtain ⟨hl, he⟩ := ih ys e1 e2 (fun hm => h1 (List.mem_cons_of_mem _ hm))
        (fun hm => h2 (List.mem_cons_of_mem _ hm)) h.2
      exact ⟨by rw [h.1, hl], he⟩

/-- The key of a warning without a cached key. -/
theorem GetUniqueID_fresh (w : Warning) (h : w.uid = "") :
    w.GetUniqueID.1 = w.Location ++ "/" ++ w.Event := by
  simp [Warning.GetUniqueID, h]

/-- C10 (amended): for two freshly parsed warnings (no key cached), `GetUniqueID` returns the same
string for both when they have the same location name and the same event name, whatever their other
fields are; and when neither location name contains the separator `/`, it returns the same string for
both if and only if they have the same location name and the same event name. -/
theorem GetUniqueID_eq_iff (w1 w2 : Warning) (h1 : w1.uid = "") (h2 : w2.uid = "") :
    (w1.Location = w2.Location ∧ w1.Event = w2.Event → w1.GetUniqueID.1 = w2.GetUniqueID.1) ∧
      (Char.ofNat 47 ∉ w1.Location.data → Char.ofNat 47 ∉ w2.Location.data →
        (w1.GetUniqueID.1 = w2.GetUniqueID.1 ↔
          w1.Location = w2.Location ∧ w1.Event = w2.Event)) := by
  rw [GetUniqueID_fresh w1 h1, GetUniqueID_fresh w2 h2]
  have easy : w1.Location = w2.Location ∧ w1.Event = w2.Event →
      w1.Location ++ "/" ++ w1.Event = w2.Location ++ "/" ++ w2.Event := by
    rintro ⟨hl, he⟩
    rw [hl, he]
  refine ⟨easy, fun n1 n2 => ⟨fun h => ?_, easy⟩⟩
  have hd := congrArg String.data h
  simp only [String.data_append] at hd
  simp only [List.append_assoc, List.singleton_append] at hd
  obtain ⟨hl, he⟩ := split_at_sep _ _ _ _ _ n1 n2 hd
  exact ⟨String.ext hl, String.ext he⟩

/-- Witness of C10: two warnings that differ in their level only. -/
theorem GetUniqueID_eq_iff_witness :
    ((Warning.named "Helgoland" "STURMBÖEN").uid = "" ∧
      ({ Warning.named "Helgoland" "STURMBÖEN" with Level := 3 } : Warning).uid = "") ∧
      Char.ofNat 47 ∉ (Warning.named "Helgoland" "STURMBÖEN").Location.data ∧
      Char.ofNat 47 ∉ ({ Warning.named "Helgoland" "STURMBÖEN" with Level := 3 } : Warning).Location.data ∧
      ((Warning.named "Helgoland" "STURMBÖEN").GetUniqueID.1 =
          ({ Warning.named "Helgoland" "STURMBÖEN" with Level := 3 } : Warning).GetUniqueID.1 ↔
        (Warning.named "Helgoland" "STURMBÖEN").Location =
            ({ Warning.named "Helgoland" "STURMBÖEN" with Level := 3 } : Warning).Location ∧
          (Warning.named "Helgoland" "STURMBÖEN").Event =
            ({ Warning.named "Helgoland" "STURMBÖEN" with Level := 3 } : Warning).Event) :=
  ⟨⟨rfl, rfl⟩, by decide, by decide,
    (GetUniqueID_eq_iff (Warning.named "Helgoland" "STURMBÖEN")
      { Warning.named "Helgoland" "STURMBÖEN" with Level := 3 } rfl rfl).2 (by decide) (by decide)⟩

/-- C10 (counterexample): two freshly parsed warnings with different location names and different
event names get the same key, because the separator `/` may occur in the names. -/
theorem GetUniqueID_collision :
    (Warning.named "Elbe/Cuxhaven" "WIND").uid = "" ∧
      (Warning.named "Elbe" "Cuxhaven/WIND").uid = "" ∧
      (Warning.named "Elbe/Cuxhaven" "WIND").GetUniqueID.1 =
        (Warning.named "Elbe" "Cuxhaven/WIND").GetUniqueID.1 ∧
      (Warning.named "Elbe/Cuxhaven" "WIND").Location ≠ (Warning.named "Elbe" "Cuxhaven/WIND").Location := by
  decide

/-! ## `ProcessWarnings` -/

/-- The pattern loop finds a match when some pattern matches. -/
theorem matchLocations_eq (locations : List Regexp) (w : Warning) :
    matchLocations locations w = relevant locations w := by
  induction locations with
  | nil => rfl
  | cons l ls ih =>
    simp only [matchLocations, relevant, List.any_cons]
    cases h : l.MatchString w.Location with
    | true => simp
    | false => simpa [relevant] using ih

/-- The loop over one category appends what the category emits. -/
theorem collectItems_eq (locations : List Regexp) (id : Int) (ws : List Warning) :
    ∀ list, collectItems locations id ws list = list ++ emitted locations (id, ws) := by
  induction ws with
  | nil => intro list; simp [collectItems, emitted]
  | cons w ws ih =>
    intro list
    simp only [collectItems, matchLocations_eq]
    cases h : relevant locations w with
    | true => simp [ih, emitted, h, Warning.withID]
    | false => simp [ih, emitted, h]

/-- The loop over a map appends what its categories emit, in the order visited. -/
theorem collectMap_eq (locations : List Regexp) (m : WarningMap) :
    ∀ list, collectMap locations m list = list ++ m.flatMap (emitted locations) := by
  induction m with
  | nil => intro list; simp [collectMap]
  | cons e rest ih =>
    intro list
    obtain ⟨id, i⟩ := e
    simp [collectMap, ih, collectItems_eq]

/-- Setting `ID` does not change whether a warning matches. -/
theorem relevant_withID (locations : List Regexp) (id : Int) (w : Warning) :
    relevant locations (w.withID id) = relevant locations w := rfl

/-- What the categories of a map emit is the keyed warnings of the map that match. -/
theorem flatMap_emitted (locations : List Regexp) (m : WarningMap) :
    m.flatMap (emitted locations) = (keyed m).filter (relevant locations) := by
  induction m with
  | nil => rfl
  | cons e rest ih =>
    simp only [List.flatMap_cons, keyed, List.filter_append] at ih ⊢
    rw [ih]
    congr 1
    simp only [emitted, List.filter_map]
    congr 1

/-- The list `ProcessWarnings` returns for a document that parses. -/
theorem ProcessWarnings_eq (unmarshal : List Char → Except Err WeatherInfo) (ordW ordV : RangeOrder)
    (c : Client) (raw : List Char) (info : WeatherInfo) (h : unmarshal raw = .ok info) :
    ProcessWarnings unmarshal ordW ordV c raw =
      .ok ((ordW.visit info.Warnings).flatMap (emitted c.locations) ++
        (ordV.visit info.PrelimWarnings).flatMap (emitted c.locations)) := by
  simp [ProcessWarnings, h, collectMap_eq]

/-- Occurrences of a warning among the matching ones of a list. -/
theorem count_filter_relevant (locations : List Regexp) (l : List Warning) (w : Warning) :
    (l.filter (relevant locations)).count w = if relevant locations w then l.count w else 0 := by
  cases h : relevant locations w with
  | true => simpa using List.count_filter h
  | false =>
    simp only [Bool.false_eq_true, if_false]
    apply List.count_eq_zero_of_not_mem
    intro hm
    rw [List.mem_filter] at hm
    rw [h] at hm
    exact Bool.false_ne_true hm.2

/-- A warning a category emits is one of its entries with `ID` set to the key. -/
theorem mem_emitted (locations : List Regexp) (e : Int × List Warning) (w : Warning)
    (h : w ∈ emitted locations e) : ∃ w0 ∈ e.2, w = { w0 with ID := e.1 } := by
  simp only [emitted, List.mem_map, List.mem_filter] at h
  obtain ⟨w0, ⟨hm, _⟩, rfl⟩ := h
  exact ⟨w0, hm, rfl⟩

/-- C1: for every document that parses and every pattern list of the client,
`ProcessWarnings` returns a list without error; every warning occurs in the list as often as it occurs
in the document (in the `warnings` and `vorabInformation` maps together, `ID` being the category key)
when some pattern matches its location, and not at all when none does, so a location matched by
several patterns is not listed more often; and the matching warnings of each category stand in the
list together, in the order of the document. -/
theorem ProcessWarnings_selects (unmarshal : List Char → Except Err WeatherInfo)
    (ordW ordV : RangeOrder) (c : Client) (raw : List Char) (info : WeatherInfo)
    (h : unmarshal raw = .ok info) :
    ∃ list, ProcessWarnings unmarshal ordW ordV c raw = .ok list ∧
      (∀ w : Warning, list.count w =
        if (c.locations.any fun l => l.MatchString w.Location) then
          (keyed info.Warnings ++ keyed info.PrelimWarnings).count w
        else 0) ∧
      (∀ e ∈ info.Warnings ++ info.PrelimWarnings,
        (e.2.filter fun w => c.locations.any fun l => l.MatchString w.Location).map
          (Warning.withID e.1) <:+: list) := by
  refine ⟨_, ProcessWarnings_eq unmarshal ordW ordV c raw info h, ?_, ?_⟩
  · intro w
    have pW := (List.Perm.flatMap_right (emitted c.locations) (ordW.perm info.Warnings)).count_eq w
    have pV := (List.Perm.flatMap_right (emitted c.locations) (ordV.perm info.PrelimWarnings)).count_eq w
    rw [List.count_append, pW, pV, flatMap_emitted, flatMap_emitted, count_filter_relevant,
      count_filter_relevant, List.count_append]
    show _ = if relevant c.locations w then _ else _
    split <;> rfl
  · intro e he
    show emitted c.locations e <:+: _
    rcases List.mem_append.1 he with hw | hv
    · have hm : e ∈ ordW.visit info.Warnings := (ordW.perm _).mem_iff.2 hw
      have hi : emitted c.locations e <:+: (ordW.visit info.Warnings).flatMap (emitted c.locations) :=
        List.infix_of_mem_flatten (List.mem_map_of_mem _ hm)
      exact hi.trans (List.infix_append' [] _ _)
    · have hm : e ∈ ordV.visit info.PrelimWarnings := (ordV.perm _).mem_iff.2 hv
      have hi : emitted c.locations e <:+: (ordV.visit info.PrelimWarnings).flatMap (emitted c.locations) :=
        List.infix_of_mem_flatten (List.mem_map_of_mem _ hm)
      exact hi.trans (List.suffix_append _ _).isInfix

/-- Witness of C1: two patterns, one a part of the other, both match the location of the one
entry, which is returned once. -/
theorem ProcessWarnings_selects_witness :
    ∃ c, New (.ok ()) (fun s => .ok ⟨s⟩) Compile "" ["Helgo", "Helgoland"] = .ok c ∧
      decodeSamples (docText "100" "Helgoland") = .ok (docAt 100 "Helgoland") ∧
      ProcessWarnings decodeSamples RangeOrder.listed RangeOrder.listed c (docText "100" "Helgoland") =
        .ok [(Warning.named "Helgoland" "").withID 1] ∧
      ∃ list, ProcessWarnings decodeSamples RangeOrder.listed RangeOrder.listed c
          (docText "100" "Helgoland") = .ok list ∧
        (∀ w : Warning, list.count w =
          if (c.locations.any fun l => l.MatchString w.Location) then
            (keyed (docAt 100 "Helgoland").Warnings ++
              keyed (docAt 100 "Helgoland").PrelimWarnings).count w
          else 0) ∧
        (∀ e ∈ (docAt 100 "Helgoland").Warnings ++ (docAt 100 "Helgoland").PrelimWarnings,
          (e.2.filter fun w => c.locations.any fun l => l.MatchString w.Location).map
            (Warning.withID e.1) <:+: list) :=
  ⟨_, rfl, rfl, rfl,
    ProcessWarnings_selects decodeSamples RangeOrder.listed RangeOrder.listed _
      (docText "100" "Helgoland") (docAt 100 "Helgoland") rfl⟩

/-- C2: every warning `ProcessWarnings` returns is an entry of the parsed document, from the
`warnings` or the `vorabInformation` map, with `ID` set to the key of the category the entry stands
under and every other field as parsed.  For a document with time 1627052765000 and one entry under
`warnings[1]` whose region name is `Starnberger See`, and the pattern list `Starnberger.*`, the
returned list has one element, and its `ID` is 1. -/
theorem ProcessWarnings_sets_ID :
    (∀ (unmarshal : List Char → Except Err WeatherInfo) (ordW ordV : RangeOrder) (c : Client)
        (raw : List Char) (info : WeatherInfo), unmarshal raw = .ok info →
        ∃ list, ProcessWarnings unmarshal ordW ordV c raw = .ok list ∧
          ∀ w ∈ list, ∃ e ∈ info.Warnings ++ info.PrelimWarnings, ∃ w0 ∈ e.2,
            w = { w0 with ID := e.1 }) ∧
      (∀ (unmarshal : List Char → Except Err WeatherInfo) (ordW ordV : RangeOrder)
        (urlParse : String → Except Err URL) (c : Client) (raw : List Char) (w0 : Warning)
        (copyright : String),
        w0.Location = "Starnberger See" →
        unmarshal raw = .ok ⟨1627052765000, [(1, [w0])], [], copyright⟩ →
        New (.ok ()) urlParse Compile "" ["Starnberger.*"] = .ok c →
        ∃ w, ProcessWarnings unmarshal ordW ordV c raw = .ok [w] ∧ [w].length = 1 ∧ w.ID = 1 ∧
          w = { w0 with ID := 1 }) := by
  constructor
  · intro unmarshal ordW ordV c raw info h
    refine ⟨_, ProcessWarnings_eq unmarshal ordW ordV c raw info h, ?_⟩
    intro w hw
    rcases List.mem_append.1 hw with hw | hw
    · obtain ⟨e, he, hwe⟩ := List.mem_flatMap.1 hw
      obtain ⟨w0, h0, rfl⟩ := mem_emitted _ _ _ hwe
      exact ⟨e, List.mem_append_left _ ((ordW.perm _).mem_iff.1 he), w0, h0, rfl⟩
    · obtain ⟨e, he, hwe⟩ := List.mem_flatMap.1 hw
      obtain ⟨w0, h0, rfl⟩ := mem_emitted _ _ _ hwe
      exact ⟨e, List.mem_append_right _ ((ordV.perm _).mem_iff.1 he), w0, h0, rfl⟩
  · intro unmarshal ordW ordV urlParse c raw w0 copyright hloc hu hnew
    have hl := New_locations urlParse Compile _ c hnew
    have hc : compileLocations Compile ["Starnberger.*"] [] =
        .ok [Regexp.ofInsts (("Starnberger".data.map fun x => Inst.one (.lit x)) ++ [.star .dot])] := rfl
    rw [hc] at hl
    have hlocs := (Except.ok.inj hl).symm
    have hW : ordW.visit [(1, [w0])] = [(1, [w0])] := List.perm_singleton.1 (ordW.perm _)
    have hV : ordV.visit [] = [] := List.perm_nil.1 (ordV.perm _)
    have hrel : relevant c.locations w0 = true := by
      rw [hlocs]
      simp only [relevant, hloc]
      decide
    refine ⟨{ w0 with ID := 1 }, ?_, rfl, rfl, rfl⟩
    rw [ProcessWarnings_eq unmarshal ordW ordV c raw _ hu]
    simp only [hW, hV]
    simp [emitted, hrel, Warning.withID]

/-- Witness of C2: the scenario of the claim. -/
theorem ProcessWarnings_sets_ID_witness :
    ∃ c, New (.ok ()) (fun s => .ok ⟨s⟩) Compile "" ["Starnberger.*"] = .ok c ∧
      decodeSamples (docText "1627052765000" "Starnberger See") =
        .ok ⟨1627052765000, [(1, [Warning.named "Starnberger See" ""])], [], ""⟩ ∧
      ∃ w, ProcessWarnings decodeSamples RangeOrder.listed RangeOrder.listed c
          (docText "1627052765000" "Starnberger See") = .ok [w] ∧ [w].length = 1 ∧ w.ID = 1 ∧
        w = { Warning.named "Starnberger See" "" with ID := 1 } :=
  ⟨_, rfl, rfl,
    ProcessWarnings_sets_ID.2 decodeSamples RangeOrder.listed RangeOrder.listed (fun s => .ok ⟨s⟩) _
      (docText "1627052765000" "Starnberger See") (Warning.named "Starnberger See" "") "" rfl rfl rfl⟩

/-! ## `checkWarnings` -/

/-- The loop over one category sends what the category emits. -/
theorem sendItems_eq (locations : List Regexp) (taken : Nat) (id : Int) (ws : List Warning) :
    ∀ q, sendItems locations taken id ws q = q.sendAll taken (emitted locations (id, ws)) := by
  induction ws with
  | nil => intro q; rfl
  | cons w ws ih =>
    intro q
    simp only [sendItems, matchLocations_eq]
    cases h : relevant locations w with
    | true =>
      simp only [emitted, List.filter_cons, h, if_true, List.map_cons, Chan.sendAll, Warning.withID]
      cases q.send taken { w with ID := id } with
      | done q1 => simpa [emitted, Warning.withID] using ih q1
      | blocked q1 => rfl
      | panicked => rfl
    | false =>
      simp only [Bool.false_eq_true, if_false]
      rw [ih q]
      simp [emitted, h]

/-- Sending a list in two parts. -/
theorem sendAll_append (taken : Nat) (l1 l2 : List Warning) : ∀ q,
    Chan.sendAll taken q (l1 ++ l2) =
      match Chan.sendAll taken q l1 with
      | .done q1 => Chan.sendAll taken q1 l2
      | .blocked q1 => .blocked q1
      | .panicked => .panicked := by
  induction l1 with
  | nil => intro q; rfl
  | cons w ws ih =>
    intro q
    simp only [List.cons_append, Chan.sendAll]
    cases q.send taken w with
    | done q1 => exact ih q1
    | blocked q1 => rfl
    | panicked => rfl

/-- The loop over a map sends what its categories emit, in the order visited. -/
theorem sendMap_eq (locations : List Regexp) (taken : Nat) (m : WarningMap) :
    ∀ q, sendMap locations taken m q = q.sendAll taken (m.flatMap (emitted locations)) := by
  induction m with
  | nil => intro q; rfl
  | cons e rest ih =>
    intro q
    obtain ⟨id, i⟩ := e
    simp only [sendMap, List.flatMap_cons, sendAll_append, sendItems_eq]
    cases Chan.sendAll taken q (emitted locations (id, i)) with
    | done q1 => exact ih q1
    | blocked q1 => rfl
    | panicked => rfl

/-- A queue that lets the sends through holds the warnings afterwards. -/
theorem sendAll_takes (taken : Nat) (l : List Warning) : ∀ q : Chan, q.takes taken l.length →
    q.sendAll taken l = .done { q with sent := q.sent ++ l } := by
  induction l with
  | nil => intro q _; simp [Chan.sendAll]
  | cons w ws ih =>
    intro q h
    rcases h with h | ⟨hn, hc, hl⟩
    · simp at h
    · simp only [List.length_cons] at hl
      have hs : q.send taken w = .done { q with sent := q.sent ++ [w] } := by
        simp only [Chan.send, hn, hc, Bool.false_eq_true, if_false]
        rw [if_pos (by omega)]
      simp only [Chan.sendAll, hs]
      rw [ih { q with sent := q.sent ++ [w] }
        (Or.inr ⟨hn, hc, by simp only [List.length_append, List.length_singleton]; omega⟩)]
      simp

/-- Sends that are all done were let through by the queue. -/
theorem sendAll_done (taken : Nat) (l : List Warning) : ∀ q q1 : Chan,
    q.sendAll taken l = .done q1 → q.takes taken l.length := by
  induction l with
  | nil => intro q q1 _; exact Or.inl rfl
  | cons w ws ih =>
    intro q q1 h
    simp only [Chan.sendAll, Chan.send] at h
    by_cases hn : q.isNil = true
    · simp [hn] at h
    · by_cases hc : q.closed = true
      · simp [hn, hc] at h
      · by_cases hl : q.sent.length < taken + q.cap
        · simp only [hn, hc, hl, Bool.false_eq_true, if_false, if_true] at h
          refine Or.inr ⟨by simpa using hn, by simpa using hc, ?_⟩
          rcases ih _ q1 h with h0 | ⟨_, _, h2⟩
          · simp only [List.length_cons, h0]; omega
          · simp only [List.length_append, List.length_singleton, List.length_cons] at h2 ⊢
            omega
        · simp [hn, hc, hl] at h

/-- Sending changes neither the kind of the channel nor whether it is closed. -/
theorem sendAll_frame (taken : Nat) (l : List Warning) : ∀ q q1 : Chan,
    (q.sendAll taken l = .done q1 ∨ q.sendAll taken l = .blocked q1) →
      q1.isNil = q.isNil ∧ q1.closed = q.closed := by
  induction l with
  | nil =>
    intro q q1 h
    simp only [Chan.sendAll, Sending.done.injEq, reduceCtorEq, or_false] at h
    subst h
    exact ⟨rfl, rfl⟩
  | cons w ws ih =>
    intro q q1 h
    simp only [Chan.sendAll, Chan.send] at h
    by_cases hn : q.isNil = true
    · simp only [hn, if_true, reduceCtorEq, Sending.blocked.injEq, false_or] at h
      subst h
      exact ⟨rfl, rfl⟩
    · by_cases hc : q.closed = true
      · simp [hn, hc] at h
      · by_cases hl : q.sent.length < taken + q.cap
        · simp only [hn, hc, hl, Bool.false_eq_true, if_false, if_true] at h
          have r := ih _ q1 h
          have hn1 : q.isNil = false := by simpa using hn
          have hc1 : q.closed = false := by simpa using hc
          exact ⟨r.1.trans hn1.symm, r.2.trans hc1.symm⟩
        · simp only [hn, hc, hl, Bool.false_eq_true, if_false, reduceCtorEq,
            Sending.blocked.injEq, false_or] at h
          subst h
          exact ⟨rfl, rfl⟩

/-- One poll cycle on a document that is fetched and parsed. -/
theorem checkWarnings_doc (unmarshal : List Char → Except Err WeatherInfo) (get : GetResult)
    (ordW ordV : RangeOrder) (taken : Nat) (c : Client) (raw : List Char) (info : WeatherInfo)
    (hf : FetchWarning get = .returned (.ok raw)) (hu : unmarshal raw = .ok info) :
    checkWarnings unmarshal get ordW ordV taken c =
      if info.Time ≤ c.lastStamp then .returned c else
        match c.WarnQueue.sendAll taken ((ordW.visit info.Warnings).flatMap (emitted c.locations) ++
            (ordV.visit info.PrelimWarnings).flatMap (emitted c.locations)) with
        | .done q => .returned { c with lastStamp := info.Time, WarnQueue := q }
        | .blocked q => .blocked { c with lastStamp := info.Time, WarnQueue := q }
        | .panicked => .panicked := by
  simp only [checkWarnings, hf, hu, sendMap_eq, sendAll_append]
  split
  · rfl
  · cases Chan.sendAll taken c.WarnQueue ((ordW.visit info.Warnings).flatMap (emitted c.locations)) with
    | done q =>
      simp only
      cases Chan.sendAll taken q ((ordV.visit info.PrelimWarnings).flatMap (emitted c.locations)) <;> rfl
    | blocked q => rfl
    | panicked => rfl

/-- A poll cycle either leaves the state as it is, or raises the last-seen timestamp and sends to
the queue; it touches neither the flag nor the patterns, and leaves the queue of its kind and as
open or closed as it was. -/
theorem checkWarnings_frame (unmarshal : List Char → Except Err WeatherInfo) (get : GetResult)
    (ordW ordV : RangeOrder) (taken : Nat) (c c1 : Client)
    (h : checkWarnings unmarshal get ordW ordV taken c = .returned c1 ∨
      checkWarnings unmarshal get ordW ordV taken c = .blocked c1) :
    (c1.lastStamp = c.lastStamp ∨ c.lastStamp < c1.lastStamp) ∧ c1.active = c.active ∧
      c1.locations = c.locations ∧ c1.WarnQueue.isNil = c.WarnQueue.isNil ∧
      c1.WarnQueue.closed = c.WarnQueue.closed := by
  have same : ∀ c2 : Client, c2 = c →
      (c2.lastStamp = c.lastStamp ∨ c.lastStamp < c2.lastStamp) ∧ c2.active = c.active ∧
        c2.locations = c.locations ∧ c2.WarnQueue.isNil = c.WarnQueue.isNil ∧
        c2.WarnQueue.closed = c.WarnQueue.closed := by
    rintro c2 rfl
    exact ⟨Or.inl rfl, rfl, rfl, rfl, rfl⟩
  unfold checkWarnings at h
  split at h
  · simp at h
  · simp only [Polled.returned.injEq, reduceCtorEq, or_false] at h
    exact same c1 h.symm
  · split at h
    · simp only [Polled.returned.injEq, reduceCtorEq, or_false] at h
      exact same c1 h.symm
    · rename_i raw _ info hu
      split at h
      · simp only [Polled.returned.injEq, reduceCtorEq, or_false] at h
        exact same c1 h.symm
      · rename_i hlt
        simp only [sendMap_eq] at h
        cases hW : Chan.sendAll taken c.WarnQueue
            ((ordW.visit info.Warnings).flatMap (emitted c.locations)) with
        | panicked => simp [hW] at h
        | blocked q =>
          simp only [hW, reduceCtorEq, Polled.blocked.injEq, false_or] at h
          have f := sendAll_frame taken _ _ q (Or.inr hW)
          subst h
          exact ⟨Or.inr (by simp only; omega), rfl, rfl, f.1, f.2⟩
        | done q =>
          have f := sendAll_frame taken _ _ q (Or.inl hW)
          simp only [hW] at h
          cases hV : Chan.sendAll taken q
              ((ordV.visit info.PrelimWarnings).flatMap (emitted c.locations)) with
          | panicked => simp [hV] at h
          | blocked q1 =>
            simp only [hV, reduceCtorEq, Polled.blocked.injEq, false_or] at h
            have g := sendAll_frame taken _ _ q1 (Or.inr hV)
            subst h
            exact ⟨Or.inr (by simp only; omega), rfl, rfl, g.1.trans f.1, g.2.trans f.2⟩
          | done q1 =>
            simp only [hV, Polled.returned.injEq, reduceCtorEq, or_false] at h
            have g := sendAll_frame taken _ _ q1 (Or.inl hV)
            subst h
            exact ⟨Or.inr (by simp only; omega), rfl, rfl, g.1.trans f.1, g.2.trans f.2⟩

/-- The times of the forwarded documents increase strictly from the initial last-seen timestamp on. -/
theorem forwardedTimes_increasing (unmarshal : List Char → Except Err WeatherInfo)
    (ks : List Cycle) : ∀ c : Client,
      (c.lastStamp :: forwardedTimes unmarshal c ks).Pairwise (fun a b => a < b) := by
  induction ks with
  | nil => intro c; simp [forwardedTimes]
  | cons k ks ih =>
    intro c
    simp only [forwardedTimes]
    cases hc : checkWarnings unmarshal k.get k.ordW k.ordV k.taken c with
    | panicked => simp
    | blocked c1 => simp
    | returned c1 =>
      simp only
      have h1 := ih c1
      rcases (checkWarnings_frame unmarshal k.get k.ordW k.ordV k.taken c c1 (Or.inl hc)).1 with he | hl
      · rw [if_neg (by simp [he]), ← he]
        exact h1
      · rw [if_pos (by omega)]
        rw [List.pairwise_cons] at h1 ⊢
        refine ⟨?_, List.pairwise_cons.2 h1⟩
        intro t ht
        rcases List.mem_cons.1 ht with rfl | ht
        · exact hl
        · exact lt_trans hl (h1.1 t ht)

/-- The rule of one poll cycle on a document that is fetched and parsed. -/
theorem checkWarnings_rule (unmarshal : List Char → Except Err WeatherInfo) (k : Cycle)
    (c : Client) (raw : List Char) (info : WeatherInfo) (hr : k.reads unmarshal raw info) :
    (info.Time ≤ c.lastStamp →
        checkWarnings unmarshal k.get k.ordW k.ordV k.taken c = .returned c) ∧
      (c.lastStamp < info.Time →
        ∃ list, ProcessWarnings unmarshal k.ordW k.ordV c raw = .ok list ∧
          (c.WarnQueue.takes k.taken list.length →
            checkWarnings unmarshal k.get k.ordW k.ordV k.taken c =
              .returned { c with lastStamp := info.Time,
                                 WarnQueue := { c.WarnQueue with sent := c.WarnQueue.sent ++ list } }) ∧
          (¬ c.WarnQueue.takes k.taken list.length →
            ∀ c1, checkWarnings unmarshal k.get k.ordW k.ordV k.taken c ≠ .returned c1)) := by
  have hd := checkWarnings_doc unmarshal k.get k.ordW k.ordV k.taken c raw info hr.1 hr.2
  constructor
  · intro hle
    rw [hd, if_pos hle]
  · intro hlt
    refine ⟨_, ProcessWarnings_eq unmarshal k.ordW k.ordV c raw info hr.2, ?_, ?_⟩
    · intro ht
      rw [hd, if_neg (by omega), sendAll_takes k.taken _ _ ht]
    · intro hn c1 hc
      rw [hd, if_neg (by omega)] at hc
      cases hs : Chan.sendAll k.taken c.WarnQueue
          ((k.ordW.visit info.Warnings).flatMap (emitted c.locations) ++
            (k.ordV.visit info.PrelimWarnings).flatMap (emitted c.locations)) with
      | done q => exact hn (sendAll_done k.taken _ _ q hs)
      | blocked q => rw [hs] at hc; cases hc
      | panicked => rw [hs] at hc; cases hc

/-- C3 (amended): for every client state and every document fetched and parsed, a poll cycle leaves the
state as it is when the document's time is not strictly greater than the last-seen timestamp;
when it is, and the queue lets the sends through (its buffer of 8, with what the consumer
receives, has room for each), the cycle sets the last-seen timestamp to the document's time and
sends the document's matching warnings (the list `ProcessWarnings` returns for it) to the queue, and
when the queue does not let them through the cycle does not return.  Of two documents with the same
time fed one after the other the second is never forwarded; a document with a strictly greater time
that follows them is forwarded, the queue letting it through, exactly when its time is also strictly
greater than the last-seen timestamp from before the two; and over any sequence of cycles the times
of the forwarded documents are strictly increasing, starting above the initial last-seen
timestamp. -/
theorem checkWarnings_dedup (unmarshal : List Char → Except Err WeatherInfo) :
    (∀ (k : Cycle) (c : Client) (raw : List Char) (info : WeatherInfo), k.reads unmarshal raw info →
      (info.Time ≤ c.lastStamp →
        checkWarnings unmarshal k.get k.ordW k.ordV k.taken c = .returned c) ∧
      (c.lastStamp < info.Time →
        ∃ list, ProcessWarnings unmarshal k.ordW k.ordV c raw = .ok list ∧
          (c.WarnQueue.takes k.taken list.length →
            checkWarnings unmarshal k.get k.ordW k.ordV k.taken c =
              .returned { c with lastStamp := info.Time,
                                 WarnQueue := { c.WarnQueue with sent := c.WarnQueue.sent ++ list } }) ∧
          (¬ c.WarnQueue.takes k.taken list.length →
            ∀ c1, checkWarnings unmarshal k.get k.ordW k.ordV k.taken c ≠ .returned c1))) ∧
    (∀ (k1 k2 k3 : Cycle) (c c1 : Client) (raw1 raw2 raw3 : List Char)
        (info1 info2 info3 : WeatherInfo),
      k1.reads unmarshal raw1 info1 → k2.reads unmarshal raw2 info2 → k3.reads unmarshal raw3 info3 →
      info1.Time = info2.Time → info2.Time < info3.Time →
      checkWarnings unmarshal k1.get k1.ordW k1.ordV k1.taken c = .returned c1 →
      checkWarnings unmarshal k2.get k2.ordW k2.ordV k2.taken c1 = .returned c1 ∧
        (info3.Time ≤ c.lastStamp →
          checkWarnings unmarshal k3.get k3.ordW k3.ordV k3.taken c1 = .returned c1) ∧
        (c.lastStamp < info3.Time →
          ∃ list, ProcessWarnings unmarshal k3.ordW k3.ordV c1 raw3 = .ok list ∧
            (c1.WarnQueue.takes k3.taken list.length →
              checkWarnings unmarshal k3.get k3.ordW k3.ordV k3.taken c1 =
                .returned { c1 with lastStamp := info3.Time,
                                    WarnQueue := { c1.WarnQueue with
                                      sent := c1.WarnQueue.sent ++ list } }))) ∧
    (∀ (c : Client) (ks : List Cycle),
      (c.lastStamp :: forwardedTimes unmarshal c ks).Pairwise (fun a b => a < b)) := by
  refine ⟨fun k c raw info hr => checkWarnings_rule unmarshal k c raw info hr, ?_,
    fun c ks => forwardedTimes_increasing unmarshal ks c⟩
  intro k1 k2 k3 c c1 raw1 raw2 raw3 info1 info2 info3 h1 h2 h3 he hlt hk1
  have hstamp : c1.lastStamp = max c.lastStamp info1.Time := by
    have hd := checkWarnings_doc unmarshal k1.get k1.ordW k1.ordV k1.taken c raw1 info1 h1.1 h1.2
    rw [hd] at hk1
    by_cases hle : info1.Time ≤ c.lastStamp
    · rw [if_pos hle] at hk1
      cases hk1
      exact (max_eq_left hle).symm
    · rw [if_neg hle] at hk1
      have hle1 : c.lastStamp ≤ info1.Time := by omega
      split at hk1
      · cases hk1
        exact (max_eq_right hle1).symm
      · cases hk1
      · cases hk1
  have r2 := checkWarnings_rule unmarshal k2 c1 raw2 info2 h2
  have r3 := checkWarnings_rule unmarshal k3 c1 raw3 info3 h3
  refine ⟨r2.1 (by rw [hstamp, ← he]; exact le_max_right _ _), ?_, ?_⟩
  · intro h
    exact r3.1 (by rw [hstamp]; exact le_max_of_le_left h)
  · intro h
    obtain ⟨list, hp, ht, _⟩ := r3.2 (by rw [hstamp]; exact max_lt h (by omega))
    exact ⟨list, hp, ht⟩

/-- Witness of C3: a fresh client whose consumer receives nothing reads documents with the times 50, 50
and 60, each with one matching warning. -/
theorem checkWarnings_dedup_witness :
    ∃ c0 c1, New (.ok ()) (fun s => .ok ⟨s⟩) Compile "" ["Helgoland"] = .ok c0 ∧
      (Cycle.answering (docText "50" "Helgoland") 0).reads decodeSamples
        (docText "50" "Helgoland") (docAt 50 "Helgoland") ∧
      (Cycle.answering (docText "60" "Helgoland") 0).reads decodeSamples
        (docText "60" "Helgoland") (docAt 60 "Helgoland") ∧
      checkWarnings decodeSamples (Cycle.answering (docText "50" "Helgoland") 0).get
        RangeOrder.listed RangeOrder.listed 0 c0 = .returned c1 ∧
      checkWarnings decodeSamples (Cycle.answering (docText "50" "Helgoland") 0).get
        RangeOrder.listed RangeOrder.listed 0 c1 = .returned c1 ∧
      (60 ≤ c0.lastStamp →
        checkWarnings decodeSamples (Cycle.answering (docText "60" "Helgoland") 0).get
          RangeOrder.listed RangeOrder.listed 0 c1 = .returned c1) ∧
      (c0.lastStamp < 60 →
        ∃ list, ProcessWarnings decodeSamples RangeOrder.listed RangeOrder.listed c1
            (docText "60" "Helgoland") = .ok list ∧
          (c1.WarnQueue.takes 0 list.length →
            checkWarnings decodeSamples (Cycle.answering (docText "60" "Helgoland") 0).get
              RangeOrder.listed RangeOrder.listed 0 c1 =
              .returned { c1 with lastStamp := 60,
                                  WarnQueue := { c1.WarnQueue with
                                    sent := c1.WarnQueue.sent ++ list } })) :=
  have r50 : (Cycle.answering (docText "50" "Helgoland") 0).reads decodeSamples
      (docText "50" "Helgoland") (docAt 50 "Helgoland") :=
    ⟨FetchWarning_wrapped _ _ _ (by decide), rfl⟩
  have r60 : (Cycle.answering (docText "60" "Helgoland") 0).reads decodeSamples
      (docText "60" "Helgoland") (docAt 60 "Helgoland") :=
    ⟨FetchWarning_wrapped _ _ _ (by decide), rfl⟩
  ⟨_, _, rfl, r50, r60, rfl,
    (checkWarnings_dedup decodeSamples).2.1 (Cycle.answering (docText "50" "Helgoland") 0)
      (Cycle.answering (docText "50" "Helgoland") 0) (Cycle.answering (docText "60" "Helgoland") 0)
      _ _ _ _ _ _ _ _ r50 r50 r60 rfl (by decide) rfl⟩

set_option maxRecDepth 8000 in
/-- C3 (counterexample): a fresh client with the pattern `Helgoland`, whose consumer receives nothing,
polls four times and reads documents with the times 100, 50, 50 and 60, each with one matching
warning.  The document with time 60 follows two documents with the same time 50 and has a strictly
greater time, yet only the first document is forwarded: the last-seen timestamp stays 100 and one
warning is sent.  And when the same client reads, as its first document, one with time 100 and nine
matching warnings, the cycle does not return: it sets the last-seen timestamp, sends eight warnings
and waits for ever on the ninth send. -/
theorem checkWarnings_later_document_dropped :
    ∃ c0 c4 c9, New (.ok ()) (fun s => .ok ⟨s⟩) Compile "" ["Helgoland"] = .ok c0 ∧
      forwardedTimes decodeSamples c0
        [Cycle.answering (docText "100" "Helgoland") 0, Cycle.answering (docText "50" "Helgoland") 0,
          Cycle.answering (docText "50" "Helgoland") 0,
          Cycle.answering (docText "60" "Helgoland") 0] = [100] ∧
      runCycles decodeSamples c0
        [Cycle.answering (docText "100" "Helgoland") 0, Cycle.answering (docText "50" "Helgoland") 0,
          Cycle.answering (docText "50" "Helgoland") 0,
          Cycle.answering (docText "60" "Helgoland") 0] = .returned c4 ∧
      c4.lastStamp = 100 ∧ c4.WarnQueue.sent = [(Warning.named "Helgoland" "").withID 1] ∧
      (Cycle.answering (crowdText "100" 9) 0).reads decodeSamples (crowdText "100" 9) (crowdAt 100 9) ∧
      checkWarnings decodeSamples (Cycle.answering (crowdText "100" 9) 0).get
        RangeOrder.listed RangeOrder.listed 0 c0 = .blocked c9 ∧
      c9.lastStamp = 100 ∧
      c9.WarnQueue.sent = List.replicate 8 ((Warning.named "Helgoland" "").withID 1) :=
  ⟨_, _, _, rfl, by decide, rfl, rfl, rfl, ⟨FetchWarning_wrapped _ _ _ (by decide), rfl⟩, rfl, rfl, rfl⟩

/-! ## `Stop` against `Loop` -/

/-- A step from a quiet state sends nothing, leaves the state quiet and leaves `Stop` waiting or
returned as it was. -/
theorem step_quiet (unmarshal : List Char → Except Err WeatherInfo) (s s1 : Sys) (a : Action)
    (hq : s.quiet) (h : step unmarshal s a = some s1) :
    s1.quiet ∧ s1.c.WarnQueue.sent = s.c.WarnQueue.sent ∧
      (s.stop = .sending → s1.stop = .sending) ∧ (s.stop = .returned → s1.stop = .returned) := by
  obtain ⟨ht, hsel⟩ := hq
  cases a with
  | stopEnter =>
    simp only [step] at h
    split at h
    · rename_i hg
      cases h
      exact ⟨⟨ht, hsel⟩, rfl, fun h2 => StopPc.noConfusion (hg.1.symm.trans h2),
        fun h2 => StopPc.noConfusion (hg.1.symm.trans h2)⟩
    · cases h
  | stopSend =>
    simp only [step] at h
    split at h
    · rename_i hg
      exact absurd hg.2 hsel
    · cases h
  | loopTest =>
    simp only [step] at h
    split at h
    · rename_i hg
      exact absurd hg ht
    · cases h
  | poll k =>
    simp only [step] at h
    split at h
    · rename_i hg
      exact absurd hg hsel
    · cases h
  | loopClose =>
    simp only [step] at h
    split at h
    · split at h
      · rename_i q hq
        cases h
        refine ⟨⟨by simp, by simp⟩, ?_, fun h2 => h2, fun h2 => h2⟩
        simp only [Chan.close] at hq
        split at hq
        · cases hq
        · cases hq
          rfl
      · cases h
        exact ⟨⟨by simp, by simp⟩, rfl, fun h2 => h2, fun h2 => h2⟩
    · cases h

/-- A run from a quiet state stays quiet, sends nothing and leaves `Stop` waiting or returned as it
was. -/
theorem run_quiet (unmarshal : List Char → Except Err WeatherInfo) (as : List Action) :
    ∀ s s1 : Sys, s.quiet → run unmarshal s as = some s1 →
      s1.quiet ∧ s1.c.WarnQueue.sent = s.c.WarnQueue.sent ∧
        (s.stop = .sending → s1.stop = .sending) ∧ (s.stop = .returned → s1.stop = .returned) := by
  induction as with
  | nil =>
    intro s s1 hq h
    simp only [run, Option.some.injEq] at h
    subst h
    exact ⟨hq, rfl, fun h => h, fun h => h⟩
  | cons a as ih =>
    intro s s1 hq h
    simp only [run] at h
    cases hst : step unmarshal s a with
    | none => rw [hst] at h; cases h
    | some s2 =>
      rw [hst] at h
      obtain ⟨hq2, hs2, hw2, hr2⟩ := step_quiet unmarshal s s2 a hq hst
      obtain ⟨hq3, hs3, hw3, hr3⟩ := ih s2 s1 hq2 h
      exact ⟨hq3, hs3.trans hs2, fun h => hw3 (hw2 h), fun h => hr3 (hr2 h)⟩

/-- When `Stop` clears the flag before the loop task tests it, the loop task leaves its loop
without receiving from `stopQueue`, and `Stop` waits on its send for ever: in no state of any run
that goes on from there has `Stop` returned. -/
theorem Stop_waits_for_ever (unmarshal : List Char → Except Err WeatherInfo) (c : Client)
    (bs : List Action) (s : Sys)
    (h : run unmarshal (Sys.started c) (.stopEnter :: .loopTest :: bs) = some s) :
    s.stop = .sending ∧ s.loop ≠ .top ∧ s.loop ≠ .select := by
  simp only [run, step, Sys.started, Start, reduceCtorEq, ne_eq, not_false_eq_true, and_self,
    if_true, Bool.false_eq_true, if_false] at h
  have hq : Sys.quiet { c := { c with active := false }, stop := .sending, loop := .exiting } := by
    simp [Sys.quiet]
  have hrun := run_quiet unmarshal bs _ s hq h
  exact ⟨hrun.2.2.1 rfl, hrun.1⟩

/-- An instance: `Stop` right after `Start`, then the loop task's test and its close. -/
theorem Stop_waits_for_ever_witness :
    ∃ s, run decodeSamples (Sys.started helgolandClient) [.stopEnter, .loopTest, .loopClose] = some s ∧
      s.stop = .sending ∧ s.loop ≠ .top ∧ s.loop ≠ .select :=
  ⟨_, rfl, Stop_waits_for_ever decodeSamples helgolandClient [.loopClose] _ rfl⟩

end Mistwetter
